import Mathlib

/-!
Verification of the Nusharek report renderer (src/src/utils/pdfExport.ts and
src/src/utils/amiriFont.ts) against its natural-language specification.

The TypeScript source is shallowly embedded: strings become `List Char`,
numbers become `ℚ` (or `ℤ`/`ℕ` where the source only holds integers), and the
stateful composer becomes explicit state passing.  Regex-based string rewrites
are embedded as fuel-indexed structural scans (fuel = input length, which
always suffices since every step consumes at least one character); each scan
mirrors the corresponding JavaScript `String.replace` call, including the
left-to-right non-overlapping match discipline of a global regex.
External collaborators (the `fetch` API, `arabic-persian-reshaper`,
`splitTextToSize`, `toLocaleDateString`) are modelled as explicit parameters
or small abstract functions, documented at their definitions.
-/

namespace Nusharek

/-- ASCII decimal digit, the `[0-9]` / `\d` character class of the source's
regexes (JavaScript `\d` without the `u` flag matches ASCII digits only). -/
def isAsciiDigit (c : Char) : Bool :=
  48 ≤ c.toNat && c.toNat ≤ 57

/-- ASCII letter. -/
def isAsciiLetter (c : Char) : Bool :=
  (97 ≤ c.toNat && c.toNat ≤ 122) || (65 ≤ c.toNat && c.toNat ≤ 90)

/-- JavaScript word character (`\w`), used for the `\b` boundaries in
`stripTechnicalTerms`. -/
def isWordChar (c : Char) : Bool :=
  isAsciiLetter c || isAsciiDigit c || c = '_'

/-- The whitespace class `\s` of the source's regexes, restricted to the
characters that can actually reach the renderer (ASCII whitespace, NBSP,
BOM); exotic Unicode space separators are not modelled. -/
def isJsWs (c : Char) : Bool :=
  c.toNat = 32 || c.toNat = 9 || c.toNat = 10 || c.toNat = 13 ||
  c.toNat = 11 || c.toNat = 12 || c.toNat = 160 || c.toNat = 0xFEFF

/-- ASCII lower-casing, the effect of the `i` regex flag on the matched text
(the stripped terms are lower-case ASCII). -/
def lowerAscii (c : Char) : Char :=
  if 65 ≤ c.toNat && c.toNat ≤ 90 then Char.ofNat (c.toNat + 32) else c

/-- The Arabic percent sign `٪` (U+066A) that `normalizePercents` rewrites
`%` into. -/
def arabicPercent : Char := '٪'

/-- An em/en dash or hyphen, the `[-–—]` class of the range regex in
`normalizePercents`. -/
def isDash (c : Char) : Bool :=
  c.toNat = 45 || c.toNat = 0x2013 || c.toNat = 0x2014

/-- Arabic-Indic digit (U+0660–U+0669), the output alphabet of
`mapWesternDigitsToArabic`. -/
def isArabicIndicDigit (c : Char) : Bool :=
  0x660 ≤ c.toNat && c.toNat ≤ 0x669

/-- pdfExport.ts `westernToArabicDigitsMap` (lines 99–110), applied to a
single character; the surrounding `replace(/[0-9]/g, …)` only ever feeds it
ASCII digits, all of which are in the table, so non-digits pass through. -/
def westernToArabicDigit (c : Char) : Char :=
  if c = '0' then '٠'
  else if c = '1' then '١'
  else if c = '2' then '٢'
  else if c = '3' then '٣'
  else if c = '4' then '٤'
  else if c = '5' then '٥'
  else if c = '6' then '٦'
  else if c = '7' then '٧'
  else if c = '8' then '٨'
  else if c = '9' then '٩'
  else c

/-- pdfExport.ts `mapWesternDigitsToArabic` (lines 130–131):
`input.replace(/[0-9]/g, d => westernToArabicDigitsMap[d] ?? d)`. -/
def mapWesternDigitsToArabic (l : List Char) : List Char :=
  l.map westernToArabicDigit

/-- pdfExport.ts `technicalTermsToStrip` (lines 112–119). -/
def technicalTermsToStrip : List (List Char) :=
  ["word-break-all".toList, "overflow-wrap".toList, "break-word".toList,
   "break-all".toList, "white-space".toList, "text-overflow".toList]

/-- Case-insensitive match of `term` against a prefix of the text; returns
the matched original characters together with the rest of the text. -/
def matchTermCI : List Char → List Char → Option (List Char × List Char)
  | [], l => some ([], l)
  | _ :: _, [] => none
  | t :: ts, c :: cs =>
    if lowerAscii c = t then
      (matchTermCI ts cs).map (fun p => (c :: p.1, p.2))
    else
      none

/-- One global, case-insensitive, word-bounded replacement pass
`out.replace(new RegExp("\\b" + term + "\\b", "gi"), " ")` from
`stripTechnicalTerms`.  `prevIsWord` tracks whether the previous original
character was a word character (for the leading `\b`); the trailing `\b`
checks the character after the match.  After a replacement the scan resumes
after the matched text, as a JavaScript global replace does. -/
def removeTermGo (term : List Char) : Nat → Bool → List Char → List Char
  | 0, _, l => l
  | _ + 1, _, [] => []
  | fuel + 1, prevIsWord, c :: cs =>
    match matchTermCI term (c :: cs) with
    | some (matched, rest) =>
      if !prevIsWord &&
          (match rest.head? with
           | none => true
           | some r => !isWordChar r) then
        ' ' :: removeTermGo term fuel (isWordChar (matched.getLastD c)) rest
      else
        c :: removeTermGo term fuel (isWordChar c) cs
    | none => c :: removeTermGo term fuel (isWordChar c) cs

/-- All occurrences of one term replaced by a space. -/
def removeTerm (term : List Char) (l : List Char) : List Char :=
  removeTermGo term l.length false l

/-- `replace(/\s+/g, " ")`: collapse each whitespace run to one space. -/
def collapseWsGo : Nat → List Char → List Char
  | 0, l => l
  | _ + 1, [] => []
  | fuel + 1, c :: cs =>
    if isJsWs c then ' ' :: collapseWsGo fuel (cs.dropWhile isJsWs)
    else c :: collapseWsGo fuel cs

def collapseWs (l : List Char) : List Char :=
  collapseWsGo l.length l

/-- JavaScript `String.trim()` over the modelled whitespace class. -/
def trimJs (l : List Char) : List Char :=
  ((l.dropWhile isJsWs).reverse.dropWhile isJsWs).reverse

/-- pdfExport.ts `stripTechnicalTerms` (lines 121–128): strip each denylist
term with whole-word case-insensitive matching, then collapse whitespace
runs and trim.  (The source returns the input unchanged when it is empty;
every stage below is the identity on `[]`, so that early return is
absorbed.) -/
def stripTechnicalTerms (l : List Char) : List Char :=
  trimJs (collapseWs (technicalTermsToStrip.foldl (fun acc term => removeTerm term acc) l))

/-- The scan of `out.replace(/%\s*(\d+)/g, "$1%")` in `normalizePercents`
(line 141): a leading percent before a number becomes a trailing percent;
the whitespace matched by `\s*` is part of the match and is dropped. -/
def leadPctGo : Nat → List Char → List Char
  | 0, l => l
  | _ + 1, [] => []
  | fuel + 1, c :: cs =>
    if c = '%' then
      let rest := cs.dropWhile isJsWs
      let ds := rest.takeWhile isAsciiDigit
      if ds.isEmpty then c :: leadPctGo fuel cs
      else ds ++ '%' :: leadPctGo fuel (rest.dropWhile isAsciiDigit)
    else c :: leadPctGo fuel cs

def leadPct (l : List Char) : List Char :=
  leadPctGo l.length l

/-- `out.replace(/%/g, "٪")` (line 144). -/
def mapPercentSign (l : List Char) : List Char :=
  l.map (fun c => if c = '%' then arabicPercent else c)

/-- One attempted match of `/(\d+\s*٪)\s*[-–—]\s*(\d+)(?!\s*٪)/` at the head
of the text (line 147).  Returns the replacement `$1-$2٪` and the rest of
the text.  The second `(\d+)` is greedy but backtracks one character when
the negative lookahead `(?!\s*٪)` fails at the full run (at any shorter
split the next character is a digit, which cannot start `\s*٪`, so one step
of backtracking always settles it). -/
def tryRangeMatch (l : List Char) : Option (List Char × List Char) :=
  let d1 := l.takeWhile isAsciiDigit
  if d1.isEmpty then none
  else
    let r1 := l.dropWhile isAsciiDigit
    let ws1 := r1.takeWhile isJsWs
    let r2 := r1.dropWhile isJsWs
    match r2 with
    | p :: r3 =>
      if p = arabicPercent then
        let r4 := r3.dropWhile isJsWs
        match r4 with
        | d :: r5 =>
          if isDash d then
            let r6 := r5.dropWhile isJsWs
            let ds := r6.takeWhile isAsciiDigit
            let after := r6.dropWhile isAsciiDigit
            if ds.isEmpty then none
            else
              let blocked := (after.dropWhile isJsWs).head? = some arabicPercent
              if blocked then
                if ds.length = 1 then none
                else
                  some (d1 ++ ws1 ++ [arabicPercent] ++ ['-'] ++ ds.dropLast ++ [arabicPercent],
                        (ds.getLast?).toList ++ after)
              else
                some (d1 ++ ws1 ++ [arabicPercent] ++ ['-'] ++ ds ++ [arabicPercent], after)
          else none
        | [] => none
      else none
    | [] => none

/-- The scan of the range rewrite `/(\d+\s*٪)\s*[-–—]\s*(\d+)(?!\s*٪)/g`
(line 147): try a match at every position, emit the replacement and resume
after the match, as the global replace does. -/
def rangeFixGo : Nat → List Char → List Char
  | 0, l => l
  | _ + 1, [] => []
  | fuel + 1, c :: cs =>
    match tryRangeMatch (c :: cs) with
    | some (repl, rest) => repl ++ rangeFixGo fuel rest
    | none => c :: rangeFixGo fuel cs

def rangeFix (l : List Char) : List Char :=
  rangeFixGo l.length l

/-- pdfExport.ts `normalizePercents` (lines 133–150): leading percent to
trailing, `%` to `٪`, then the range rewrite. -/
def normalizePercents (l : List Char) : List Char :=
  rangeFix (mapPercentSign (leadPct l))

/-- The right-to-left mark inserted by `stabilizePercentParentheses`. -/
def RLM : Char := '‏'

/-- The scan of `input.replace(/\(([^)]*٪[^)]*)\)/g, …)` in
`stabilizePercentParentheses` (lines 152–156): a parenthesised group whose
body (which cannot contain `)`) holds an Arabic percent sign is wrapped in
RLM marks.  The matched `)` is necessarily the first `)` after the `(`. -/
def stabilizeGo : Nat → List Char → List Char
  | 0, l => l
  | _ + 1, [] => []
  | fuel + 1, c :: cs =>
    if c = '(' then
      let seg := cs.takeWhile (fun x => x ≠ ')')
      match cs.dropWhile (fun x => x ≠ ')') with
      | ')' :: rest =>
        if arabicPercent ∈ seg then
          RLM :: '(' :: seg ++ ')' :: RLM :: stabilizeGo fuel rest
        else
          c :: stabilizeGo fuel cs
      | _ => c :: stabilizeGo fuel cs
    else c :: stabilizeGo fuel cs

def stabilizePercentParentheses (l : List Char) : List Char :=
  stabilizeGo l.length l

/-- pdfExport.ts `normalizeForPdf` (lines 158–164), the Digit/Symbol
Normalizer: strip technical terms, normalize percents, map western digits
to Arabic-Indic, wrap percent parentheticals in RLM. -/
def normalizeForPdf (l : List Char) : List Char :=
  stabilizePercentParentheses (mapWesternDigitsToArabic (normalizePercents (stripTechnicalTerms l)))

/-! ### amiriFont.ts: segment reversal and the Arabic text pipeline -/

/-- amiriFont.ts line 56: the character class
`[؀-ۿݐ-ݿࢠ-ࣿﭐ-﷿ﹰ-﻿]`
deciding whether a character belongs to an Arabic segment. -/
def isArabicChar (c : Char) : Bool :=
  (0x600 ≤ c.toNat && c.toNat ≤ 0x6FF) ||
  (0x750 ≤ c.toNat && c.toNat ≤ 0x77F) ||
  (0x8A0 ≤ c.toNat && c.toNat ≤ 0x8FF) ||
  (0xFB50 ≤ c.toNat && c.toNat ≤ 0xFDFF) ||
  (0xFE70 ≤ c.toNat && c.toNat ≤ 0xFEFF)

/-- The segmentation loop of `reverseStringForPdf` (amiriFont.ts lines
50–72): split the text into maximal runs of Arabic / non-Arabic characters,
each tagged with its `isArabic` flag. -/
def segmentGo : List Char → List Char → Bool → List (List Char × Bool)
  | [], cur, curIs => if cur.isEmpty then [] else [(cur, curIs)]
  | c :: cs, cur, curIs =>
    if cur.isEmpty then
      segmentGo cs [c] (isArabicChar c)
    else if isArabicChar c = curIs then
      segmentGo cs (cur ++ [c]) curIs
    else
      (cur, curIs) :: segmentGo cs [c] (isArabicChar c)

/-- amiriFont.ts `reverseStringForPdf` (lines 48–85): reverse the order of
the segments, and reverse Arabic segments internally; non-Arabic segments
(numbers, Latin text, symbols) keep their internal order.  No character is
ever replaced — in particular no paired character is mirrored. -/
def reverseStringForPdf (l : List Char) : List Char :=
  let segments := segmentGo l [] false
  (segments.reverse.map (fun s => if s.2 then s.1.reverse else s.1)).flatten

/-- amiriFont.ts `processArabicText` (lines 96–111).  The external
`arabic-persian-reshaper` call is modelled as an explicit parameter
`reshapeF` returning `Except Unit` so that a throwing reshaper can be
expressed; the surrounding `try`/`catch` returns the original text on
failure, and `if (!text) return text` short-circuits the empty string. -/
def processArabicText (reshapeF : List Char → Except Unit (List Char))
    (text : List Char) : List Char :=
  if text.isEmpty then text
  else
    match reshapeF text with
    | Except.ok reshaped => reverseStringForPdf reshaped
    | Except.error _ => text

/-- amiriFont.ts `processArabicText`, bidi-js variant (second file version,
lines 174–190): both the reshaper and the bidi reordering are external
libraries, modelled as parameters; the `try`/`catch` returns the original
text when either step throws. -/
def processArabicTextBidi (reshapeF : List Char → Except Unit (List Char))
    (reorderF : List Char → Except Unit (List Char))
    (text : List Char) : List Char :=
  if text.isEmpty then text
  else
    match reshapeF text with
    | Except.error _ => text
    | Except.ok reshaped =>
      match reorderF reshaped with
      | Except.error _ => text
      | Except.ok reordered => reordered

/-! ### Font loading (amiriFont.ts `loadAmiriFont`) -/

/-- Outcome of one `fetch` of a font-resource location: either the decoded
font bytes (as a base64 string) or a failure (a thrown fetch or a non-ok
response — both take the `catch` path in the source). -/
inductive FetchOutcome where
  | ok (data : String)
  | fail
  deriving DecidableEq, Repr

/-- amiriFont.ts `loadAmiriFont` (lines 8–32): try the ordered fallback
locations in sequence; the first success wins; if every location fails the
last error is rethrown.  The process-wide cache is irrelevant to a single
render and is not modelled. -/
def loadAmiriFont : List FetchOutcome → Except Unit String
  | [] => Except.error ()
  | FetchOutcome.ok d :: _ => Except.ok d
  | FetchOutcome.fail :: rest => loadAmiriFont rest

/-- pdfExport.ts lines 79–92: `exportResultsToPDF` awaits `loadAmiriFont`
inside a `try`; on success it registers the font and sets `hasAmiri = true`;
any failure is caught and leaves `hasAmiri = false` (helvetica fallback).
The render itself continues either way. -/
def hasAmiriOf (fontFetches : List FetchOutcome) : Bool :=
  match loadAmiriFont fontFetches with
  | Except.ok _ => true
  | Except.error _ => false

/-- pdfExport.ts `renderText` (lines 187–190): normalize, then shape/reorder
only when the Amiri font is active. -/
def renderText (hasAmiri : Bool) (reshapeF : List Char → Except Unit (List Char))
    (text : List Char) : List Char :=
  let normalized := normalizeForPdf text
  if hasAmiri then processArabicText reshapeF normalized else normalized

/-! ### Maturity tiers, colors, table and legend -/

/-- An RGB color triple as the source's `ColorTuple`. -/
abbrev ColorTuple := Nat × Nat × Nat

def tealColor : ColorTuple := (20, 184, 166)
def goldColor : ColorTuple := (245, 158, 11)
def coralColor : ColorTuple := (249, 115, 22)
def textMutedColor : ColorTuple := (100, 116, 139)

/-- pdfExport.ts `getMaturityColor` (lines 192–196). -/
def getMaturityColor (percentage : ℚ) : ColorTuple :=
  if percentage ≥ 75 then tealColor
  else if percentage ≥ 50 then goldColor
  else coralColor

/-- pdfExport.ts `getMaturityLabel` (lines 198–202). -/
def getMaturityLabel (percentage : ℚ) : String :=
  if percentage ≥ 75 then "مثالي"
  else if percentage ≥ 50 then "ناشئ"
  else "أساسي"

/-- One entry of the `maturityLabels` table. -/
structure MaturityInfo where
  ar : String
  en : String
  color : ColorTuple
  deriving DecidableEq, Repr

/-- pdfExport.ts `maturityLabels` (lines 40–44): the three-key table mapping
a `maturity_level` string to its display label and colors; note that it has
no entry for `"advanced"`. -/
def maturityLabels : List (String × MaturityInfo) :=
  [("beginner", ⟨"أساسي", "Basic", (185, 28, 28)⟩),
   ("developing", ⟨"ناشئ", "Emerging", (180, 83, 9)⟩),
   ("leading", ⟨"مثالي", "Ideal", (21, 128, 61)⟩)]

/-- `maturityLabels[key]` — `undefined` for an absent key. -/
def lookupMaturity (key : String) : Option MaturityInfo :=
  (maturityLabels.find? (fun p => p.1 = key)).map Prod.snd

/-- pdfExport.ts line 326:
`assessment.maturity_level ? maturityLabels[assessment.maturity_level] : null`
(a falsy — absent or empty — level also yields `null`). -/
def maturityOf (level : Option String) : Option MaturityInfo :=
  match level with
  | none => none
  | some s => if s = "" then none else lookupMaturity s

/-- pdfExport.ts lines 327–336: the cover maturity badge is drawn only when
`maturity` is non-null, and shows `maturity.ar`. -/
def coverBadge (level : Option String) : Option String :=
  (maturityOf level).map (fun m => m.ar)

/-- JavaScript `a || b` on strings: `b` when `a` is empty (falsy). -/
def jsOr (a b : String) : String :=
  if a = "" then b else a

/-- pdfExport.ts line 393: the summary maturity card text
`maturity?.ar || "—"`. -/
def maturityCardText (level : Option String) : String :=
  match maturityOf level with
  | none => "—"
  | some m => jsOr m.ar "—"

/-- pdfExport.ts line 386: the summary maturity card color
`maturity?.color || colors.textMuted`. -/
def maturityCardColor (level : Option String) : ColorTuple :=
  match maturityOf level with
  | none => textMutedColor
  | some m => m.color

/-- The maturity-level assignment of the scoring path
(src/unnamed/part_008 lines 611–620). -/
def scoringMaturityLevel (overallScore : ℚ) : String :=
  if overallScore < 40 then "beginner"
  else if overallScore < 60 then "developing"
  else if overallScore < 80 then "advanced"
  else "leading"

/-- JavaScript `Math.round`: round half toward positive infinity. -/
def jsRound (q : ℚ) : ℤ :=
  Rat.floor (q + 1 / 2)

/-- The per-dimension score record consumed by the renderer (pdfExport.ts
`DimensionScore`, lines 10–21); fields not read by the renderer are
omitted.  Scores are integers in the data model; `percentage` is a real
number, embedded as `ℚ`. -/
structure DimensionScore where
  score : ℤ
  max_possible_score : ℤ
  percentage : ℚ
  name_ar : String
  order_index : ℤ
  deriving DecidableEq, Repr

/-- The logical (pre-`renderText`) cell strings of one body row of the score
table, from the `tableData` construction (pdfExport.ts lines 471–481):
order index, dimension name, `score / max`, rounded percentage with `٪`,
and the tier label. -/
def tableCellSources (ds : DimensionScore) : List (List Char) :=
  [(toString ds.order_index).toList,
   ds.name_ar.toList,
   ((toString ds.score) ++ " / " ++ (toString ds.max_possible_score)).toList,
   ((toString (jsRound ds.percentage)) ++ "٪").toList,
   (getMaturityLabel ds.percentage).toList]

/-- One row of `tableData` after `renderText` is applied to each cell, with
the status color and raw percentage carried alongside (lines 471–481). -/
def tableDataRow (hasAmiri : Bool) (reshapeF : List Char → Except Unit (List Char))
    (ds : DimensionScore) : List (List Char) × ColorTuple × ℚ :=
  ((tableCellSources ds).map (renderText hasAmiri reshapeF),
   getMaturityColor ds.percentage, ds.percentage)

/-- `body: tableData.map(row => row.data)` (line 486): the body rows handed
to the table renderer, one per dimension, in list order. -/
def tableBody (hasAmiri : Bool) (reshapeF : List Char → Except Unit (List Char))
    (scores : List DimensionScore) : List (List (List Char)) :=
  (scores.map (tableDataRow hasAmiri reshapeF)).map Prod.fst

/-- pdfExport.ts `legendItems` (lines 563–567): label, range string and
color of the three legend entries, in drawn order. -/
def legendItems : List (String × String × ColorTuple) :=
  [("مثالي", "75%-100%", tealColor),
   ("ناشئ", "50%-74%", goldColor),
   ("أساسي", "0%-49%", coralColor)]

/-- The numeric endpoints written in the three legend range strings
(`"75%-100%"`, `"50%-74%"`, `"0%-49%"`), in the same order. -/
def legendBounds : List (ℚ × ℚ) :=
  [(75, 100), (50, 74), (0, 49)]

/-! ### Page geometry and the pagination engine -/

/-- jsPDF A4 portrait page height: 841.89 pt converted to millimetres
(1 pt = 25.4/72 mm), the value of `pdf.internal.pageSize.getHeight()`. -/
def pageHeight : ℚ := (84189 / 100) * (254 / 720)

/-- jsPDF A4 portrait page width: 595.28 pt in millimetres. -/
def pageWidth : ℚ := (59528 / 100) * (254 / 720)

/-- pdfExport.ts line 210: `const footerHeight = 25`, the reserved footer
space. -/
def footerHeight : ℚ := 25

/-- The write-cursor state of the pagination engine: the number of pages so
far and the vertical offset `yPos` on the current page. -/
structure PageState where
  pages : Nat
  yPos : ℚ
  deriving DecidableEq

/-- pdfExport.ts `checkPageBreak` (lines 212–220): if the declared need
would intrude into the footer-reserved zone, append a page, reset the
cursor to the top margin (30) and return `true`; otherwise return `false`
and leave the state unchanged. -/
def checkPageBreak (st : PageState) (neededSpace : ℚ) : Bool × PageState :=
  let availableSpace := pageHeight - footerHeight
  if st.yPos + neededSpace > availableSpace then
    (true, ⟨st.pages + 1, 30⟩)
  else
    (false, st)

/-- The `checkPageBreak` of the second composer variant (pdfExport.ts lines
854–859): `if (yPos > pageHeight - neededSpace - 20)` start a new page; no
value is returned. -/
def checkPageBreakSecond (st : PageState) (neededSpace : ℚ) : PageState :=
  if st.yPos > pageHeight - neededSpace - 20 then ⟨st.pages + 1, 30⟩ else st

/-- A fixed-position drawn block of the cover page: name, top and bottom of
its vertical extent in page coordinates (pdfExport.ts lines 235–346).  Text
draws are recorded at their baseline. -/
def coverBlocks : List (String × ℚ × ℚ) :=
  [("backgroundRect", 0, pageHeight),
   ("topBrandBar", 0, 8),
   ("bottomBrandBar", pageHeight - 8, pageHeight),
   ("titleText", 110, 110),
   ("scoreBox", 165, 215),
   ("dateText", pageHeight - 30, pageHeight - 30),
   ("copyrightText", pageHeight - 20, pageHeight - 20)]

/-- The reserved footer zone `[page_height - footer_reserve, page_height]`
intersects a block `[top, bottom]`. -/
def intersectsFooterZone (top bottom : ℚ) : Prop :=
  bottom ≥ pageHeight - footerHeight ∧ top ≤ pageHeight

/-- The pages visited by the footer post-pass (pdfExport.ts lines 660–692):
`for i in 1..pageCount` with `if (i === 1) continue` — every page except
the cover. -/
def footerPassPages (pageCount : Nat) : List Nat :=
  ((List.range pageCount).map (fun k => k + 1)).filter (fun i => i ≠ 1)

/-! ### The document composer as a sequence of text emissions

`exportResultsToPDF` (first composer variant, pdfExport.ts lines 65–703)
hands every string it draws to the drawing surface either directly (one
`pdf.text` per string) or after wrapping (`pdf.splitTextToSize` on the
rendered string, then one `pdf.text` per line).  The emission list below
transcribes, in source order, the logical string of every such draw; the
single string drawn without passing through `renderText` is the literal
`"#"` table-header cell, recorded as a `raw` emission. -/

inductive Emission where
  | direct (t : List Char)
  | wrapped (t : List Char)
  | raw (t : List Char)
  deriving DecidableEq, Repr

/-- Model of the external `Date#toLocaleDateString("ar-SA", …)`: dates are
identified with day numbers, and the locale renderer displays distinct days
as distinct strings (as the real formatter does). -/
def arDateOfDay (day : Nat) : List Char :=
  "التاريخ ".toList ++ (toString day).toList

/-- pdfExport.ts `formatDate` (lines 204–207): a missing completion
timestamp falls back to `new Date()` — the current clock, modelled by the
`now` parameter; otherwise the stored date is rendered. -/
def formatDate (completedAt : Option Nat) (now : Nat) : List Char :=
  match completedAt with
  | none => arDateOfDay now
  | some d => arDateOfDay d

/-- pdfExport.ts `Organization` (lines 31–37), restricted to the fields the
first composer variant reads. -/
structure Organization where
  name : String
  orgType : Option String
  deriving DecidableEq, Repr

/-- pdfExport.ts `Assessment` (lines 23–29), restricted to the fields the
renderer reads; the ISO `completed_at` string is modelled as a day number. -/
structure Assessment where
  overall_score : Option ℚ
  maturity_level : Option String
  completed_at : Option Nat
  deriving DecidableEq, Repr

/-- The full input of `exportResultsToPDF`. -/
structure ReportInput where
  assessment : Assessment
  dimensionScores : List DimensionScore
  strengths : List String
  opportunities : List String
  recommendations : List String
  organization : Option Organization
  deriving DecidableEq, Repr

/-- pdfExport.ts `orgTypeLabels` (lines 46–51). -/
def orgTypeLabels : List (String × String) :=
  [("government", "حكومي"), ("non_profit", "غير ربحي"),
   ("private_sector", "قطاع خاص"), ("other", "أخرى")]

def lookupOrgType (t : String) : Option String :=
  (orgTypeLabels.find? (fun p => p.1 = t)).map Prod.snd

/-- Lines 167–169: the insight lists are normalized up front and empty
results dropped (`.map(normalizeForPdf).filter(Boolean)`). -/
def cleanedList (items : List String) : List (List Char) :=
  (items.map (fun s => normalizeForPdf s.toList)).filter (fun t => !t.isEmpty)

/-- `[...dimensionScores].sort((a, b) => b.percentage - a.percentage)`
(line 448): stable sort, highest percentage first. -/
def sortByPercentageDesc (scores : List DimensionScore) : List DimensionScore :=
  scores.mergeSort (fun a b => decide (b.percentage ≤ a.percentage))

/-- `[...dimensionScores].sort((a, b) => a.percentage - b.percentage)`
(line 459): stable sort, lowest percentage first. -/
def sortByPercentageAsc (scores : List DimensionScore) : List DimensionScore :=
  scores.mergeSort (fun a b => decide (a.percentage ≤ b.percentage))

/-- `Math.round(assessment.overall_score || 0)` (line 314). -/
def overallScoreOf (input : ReportInput) : ℤ :=
  jsRound ((input.assessment.overall_score).getD 0)

/-- The emissions of one summary list item (`renderSummaryItem`, lines
415–443): the rank number, the dimension name, and the rounded percentage
badge. -/
def summaryItemEmissions (items : List DimensionScore) : List Emission :=
  items.enum.flatMap (fun p =>
    [Emission.direct (toString (p.1 + 1)).toList,
     Emission.direct p.2.name_ar.toList,
     Emission.direct ((toString (jsRound p.2.percentage)) ++ "٪").toList])

/-- The emissions of one prioritized-list item (`renderListItem`, lines
587–625): the rank number, then the item text wrapped into lines. -/
def listItemEmissions (items : List (List Char)) : List Emission :=
  items.enum.flatMap (fun p =>
    [Emission.direct (toString (p.1 + 1)).toList, Emission.wrapped p.2])

/-- The executive-summary intro sentence (lines 358–360). -/
def introTextOf (input : ReportInput) : List Char :=
  match input.organization with
  | some org =>
    ("يعرض هذا التقرير نتائج تقييم النضج في المشاركة المجتمعية لـ \"" ++
      org.name ++ "\".").toList
  | none => "يعرض هذا التقرير نتائج تقييم النضج في المشاركة المجتمعية.".toList

/-- Cover-page emissions (pdfExport.ts lines 234–346).  `logoOk` is the
outcome of the cover-logo fetch: on failure the brand name is drawn as text
instead of an image; `now` is the clock read by `formatDate`. -/
def coverEmissions (input : ReportInput) (logoOk : Bool) (now : Nat) : List Emission :=
  (if logoOk then [] else [Emission.direct "نُشارك".toList]) ++
  [Emission.direct "منصة التقييم الذاتي للمشاركة المجتمعية".toList,
   Emission.direct "تقرير نتائج التقييم".toList] ++
  (match input.organization with
   | some org =>
     [Emission.direct org.name.toList] ++
     (match org.orgType with
      | some t =>
        if t ≠ "" then
          match lookupOrgType t with
          | some label => [Emission.direct label.toList]
          | none => []
        else []
      | none => [])
   | none => []) ++
  [Emission.direct ((toString (overallScoreOf input)) ++ "٪").toList,
   Emission.direct "الدرجة الإجمالية".toList] ++
  (match maturityOf input.assessment.maturity_level with
   | some m => [Emission.direct m.ar.toList]
   | none => []) ++
  [Emission.direct (formatDate input.assessment.completed_at now),
   Emission.direct "جميع الحقوق محفوظة © منصة نُشارك".toList]

/-- Executive-summary emissions (pdfExport.ts lines 348–462). -/
def summaryEmissions (input : ReportInput) : List Emission :=
  [Emission.direct "ملخص تنفيذي".toList,
   Emission.wrapped (introTextOf input),
   Emission.direct ((toString (overallScoreOf input)) ++ "٪").toList,
   Emission.direct "الدرجة الإجمالية".toList,
   Emission.direct (maturityCardText input.assessment.maturity_level).toList,
   Emission.direct "مستوى النضج".toList,
   Emission.direct (toString input.dimensionScores.length).toList,
   Emission.direct "معايير التقييم".toList,
   Emission.direct "أبرز نقاط القوة".toList] ++
  summaryItemEmissions ((sortByPercentageDesc input.dimensionScores).take 3) ++
  [Emission.direct "أهم فرص التحسين".toList] ++
  summaryItemEmissions ((sortByPercentageAsc input.dimensionScores).take 3)

/-- Score-table and legend emissions (pdfExport.ts lines 464–580); the `"#"`
header cell is the one string the composer hands over without
`renderText`. -/
def tableEmissions (input : ReportInput) : List Emission :=
  [Emission.direct "تفاصيل نتائج المعايير".toList,
   Emission.raw "#".toList,
   Emission.direct "المعيار".toList,
   Emission.direct "الدرجة".toList,
   Emission.direct "النسبة".toList,
   Emission.direct "الحالة".toList] ++
  input.dimensionScores.flatMap (fun ds => (tableCellSources ds).map Emission.direct) ++
  legendItems.map (fun it =>
    Emission.direct (it.1 ++ " (" ++ it.2.1 ++ ")").toList)

/-- Prioritized insight-list emissions (pdfExport.ts lines 582–654). -/
def listsEmissions (input : ReportInput) : List Emission :=
  (if (cleanedList input.strengths).isEmpty then []
   else Emission.direct "نقاط القوة".toList ::
     listItemEmissions ((cleanedList input.strengths).take 5)) ++
  (if (cleanedList input.opportunities).isEmpty then []
   else Emission.direct "فرص التحسين".toList ::
     listItemEmissions ((cleanedList input.opportunities).take 5)) ++
  (if (cleanedList input.recommendations).isEmpty then []
   else Emission.direct "التوصيات العملية".toList ::
     listItemEmissions ((cleanedList input.recommendations).take 6))

/-- Footer post-pass emissions over pages `2..pageCount` (pdfExport.ts lines
659–692); `pageCount` is `pdf.getNumberOfPages()`. -/
def footerEmissions (input : ReportInput) (pageCount : Nat) : List Emission :=
  (footerPassPages pageCount).flatMap (fun i =>
    [Emission.direct "منصة نُشارك للتقييم الذاتي".toList,
     Emission.direct ((toString i) ++ " / " ++ (toString pageCount)).toList] ++
    (match input.organization with
     | some org => [Emission.direct org.name.toList]
     | none => []))

/-- Every logical string drawn by the first composer variant, in source
order: cover, executive summary, score table and legend, prioritized lists,
footer post-pass. -/
def emissionsOf (input : ReportInput) (logoOk : Bool) (now : Nat)
    (pageCount : Nat) : List Emission :=
  coverEmissions input logoOk now ++ summaryEmissions input ++
  tableEmissions input ++ listsEmissions input ++ footerEmissions input pageCount

/-- Hand one emission to the drawing surface: `renderText` then a single
draw, or `splitTextToSize` (the external line breaker, a parameter) then
one draw per line; a `raw` emission is drawn as-is. -/
def runEmission (hasAmiri : Bool) (reshapeF : List Char → Except Unit (List Char))
    (splitF : List Char → List (List Char)) : Emission → List (List Char)
  | Emission.direct t => [renderText hasAmiri reshapeF t]
  | Emission.wrapped t => splitF (renderText hasAmiri reshapeF t)
  | Emission.raw t => [t]

/-- Every string drawn into the document, in order. -/
def documentStrings (input : ReportInput) (hasAmiri : Bool)
    (reshapeF : List Char → Except Unit (List Char))
    (splitF : List Char → List (List Char))
    (logoOk : Bool) (now : Nat) (pageCount : Nat) : List (List Char) :=
  (emissionsOf input logoOk now pageCount).flatMap (runEmission hasAmiri reshapeF splitF)

/-- The overall render (first composer variant): the font setup never fails
the render — a failed `loadAmiriFont` is caught and only clears `hasAmiri`
— so the export always produces a document. -/
def exportResultsToPDF (fontFetches : List FetchOutcome) (input : ReportInput)
    (reshapeF : List Char → Except Unit (List Char))
    (splitF : List Char → List (List Char))
    (logoOk : Bool) (now : Nat) (pageCount : Nat) :
    Except Unit (List (List Char)) :=
  Except.ok (documentStrings input (hasAmiriOf fontFetches) reshapeF splitF logoOk now pageCount)

/-- pdfExport.ts line 434: the color of a summary item's percentage badge
(`renderSummaryItem`). -/
def summaryItemColor (ds : DimensionScore) : ColorTuple :=
  getMaturityColor ds.percentage

/-! ## C3: the page-break contract -/

/-- C3: `checkPageBreak(needed)` returns `true` and performs the page
transition (one page appended, cursor reset to the top margin 30) exactly
when `yPos + needed > pageHeight - footerHeight`; otherwise it returns
`false` and leaves the state unchanged.  The second composer variant's
`checkPageBreak` transitions under the analogous condition with its own
footer reserve of 20 (`yPos > pageHeight - needed - 20`), but returns no
value. -/
theorem checkPageBreak_contract (st : PageState) (n : ℚ) :
    (((checkPageBreak st n).1 = true ↔ st.yPos + n > pageHeight - footerHeight) ∧
     ((checkPageBreak st n).1 = true →
       (checkPageBreak st n).2 = PageState.mk (st.pages + 1) 30) ∧
     ((checkPageBreak st n).1 = false → (checkPageBreak st n).2 = st)) ∧
    (st.yPos > pageHeight - n - 20 →
      checkPageBreakSecond st n = PageState.mk (st.pages + 1) 30) ∧
    (st.yPos ≤ pageHeight - n - 20 → checkPageBreakSecond st n = st) := by
  refine ⟨?_, ?_, ?_⟩
  · simp only [checkPageBreak]
    split_ifs with h <;> simp_all
  · intro h
    unfold checkPageBreakSecond
    rw [if_pos h]
  · intro h
    unfold checkPageBreakSecond
    rw [if_neg (not_lt.mpr h)]

/-- Concrete instances of the C3 contract: a write of 40 at offset 260
breaks the page; the same write at offset 100 leaves the state alone. -/
theorem checkPageBreak_contract_witness :
    (checkPageBreak (PageState.mk 1 260) 40).2 = PageState.mk 2 30 ∧
    (checkPageBreak (PageState.mk 1 100) 40).2 = PageState.mk 1 100 ∧
    checkPageBreakSecond (PageState.mk 1 290) 40 = PageState.mk 2 30 :=
  ⟨(checkPageBreak_contract (PageState.mk 1 260) 40).1.2.1
     (by simp [checkPageBreak, pageHeight, footerHeight]; norm_num),
   (checkPageBreak_contract (PageState.mk 1 100) 40).1.2.2
     (by simp [checkPageBreak, pageHeight, footerHeight]; norm_num),
   (checkPageBreak_contract (PageState.mk 1 290) 40).2.1
     (by unfold pageHeight; norm_num)⟩

/-! ## C2: the footer-zone invariant -/

/-- C2 counterexample: the cover page's bottom brand bar
(`pdf.rect(0, pageHeight - 8, pageWidth, 8, "F")`, line 244) is a content
block whose extent lies inside the reserved footer zone, and the cover page
is skipped by the footer post-pass, so the block is not the footer. -/
theorem cover_block_in_footer_zone :
    ("bottomBrandBar", pageHeight - 8, pageHeight) ∈ coverBlocks ∧
    intersectsFooterZone (pageHeight - 8) pageHeight ∧
    1 ∉ footerPassPages 4 := by
  refine ⟨by simp [coverBlocks], ⟨?_, ?_⟩, by decide⟩
  · unfold footerHeight
    linarith
  · linarith [show (0:ℚ) ≤ 8 by norm_num]

/-- C2 amended: every block that declares its height to `checkPageBreak`
before drawing, stays within the declared height, and fits a fresh page
(`need ≤ pageHeight - footerHeight - 30`), is drawn entirely above the
reserved footer zone.  (The cover page's fixed-position blocks and the
legend, which are drawn without a `checkPageBreak` guard, are exempt.) -/
theorem guarded_block_stays_clear (st : PageState) (need extent : ℚ)
    (h1 : extent ≤ need) (h2 : need ≤ pageHeight - footerHeight - 30) :
    ((checkPageBreak st need).2).yPos + extent ≤ pageHeight - footerHeight := by
  unfold checkPageBreak
  dsimp only
  split
  · dsimp only
    linarith
  · dsimp only
    next h =>
      have := not_lt.mp h
      linarith

/-- Concrete instance of the amended C2 guarantee. -/
theorem guarded_block_stays_clear_witness :
    ((checkPageBreak (PageState.mk 2 250) 40).2).yPos + 30 ≤ pageHeight - footerHeight :=
  guarded_block_stays_clear (PageState.mk 2 250) 40 30 (by norm_num)
    (by unfold pageHeight footerHeight; norm_num)

/-! ## C9: a maturity level missing from the label table -/

/-- C9: the scoring path labels every overall score in `[60, 80)` as
`"advanced"`, a key the renderer's three-entry `maturityLabels` table does
not contain; for any absent key the cover draws no maturity badge and the
summary card falls back to the placeholder `—` and the muted color, with no
error raised (all the involved functions are total). -/
theorem advanced_level_missing_from_labels :
    (∀ q : ℚ, 60 ≤ q → q < 80 → scoringMaturityLevel q = "advanced") ∧
    lookupMaturity "advanced" = none ∧
    (∀ key, lookupMaturity key = none →
      coverBadge (some key) = none ∧
      maturityCardText (some key) = "—" ∧
      maturityCardColor (some key) = textMutedColor) := by
  refine ⟨?_, by decide, ?_⟩
  · intro q h1 h2
    unfold scoringMaturityLevel
    rw [if_neg (by linarith), if_neg (by linarith), if_pos h2]
  · intro key h
    unfold coverBadge maturityCardText maturityCardColor maturityOf
    by_cases hk : key = "" <;> simp [hk, h]

/-- Concrete instance of C9 at overall score 70. -/
theorem advanced_level_missing_from_labels_witness :
    scoringMaturityLevel 70 = "advanced" ∧
    coverBadge (some "advanced") = none ∧
    maturityCardText (some "advanced") = "—" :=
  ⟨advanced_level_missing_from_labels.1 70 (by norm_num) (by norm_num),
   (advanced_level_missing_from_labels.2.2 "advanced"
     advanced_level_missing_from_labels.2.1).1,
   (advanced_level_missing_from_labels.2.2 "advanced"
     advanced_level_missing_from_labels.2.1).2.1⟩

/-! ## C10: totality of `processArabicText` -/

/-- C10: `processArabicText` is total (it is a Lean function): the empty
input is returned unchanged, and when the reshaping step (or, in the
bidi-js variant, the reordering step) throws, the exception is caught and
the original logical string is returned unmodified. -/
theorem processArabicText_total_and_caught :
    (∀ f, processArabicText f [] = []) ∧
    (∀ f t, f t = Except.error () → processArabicText f t = t) ∧
    (∀ f g, processArabicTextBidi f g [] = []) ∧
    (∀ f g t, f t = Except.error () → processArabicTextBidi f g t = t) ∧
    (∀ f g t r, f t = Except.ok r → g r = Except.error () →
      processArabicTextBidi f g t = t) := by
  refine ⟨fun f => rfl, ?_, fun f g => rfl, ?_, ?_⟩
  · intro f t h
    unfold processArabicText
    split
    · rfl
    · rw [h]
  · intro f g t h
    unfold processArabicTextBidi
    split
    · rfl
    · rw [h]
  · intro f g t r hf hg
    unfold processArabicTextBidi
    split
    · rfl
    · simp [hf, hg]

/-- Concrete instances of C10: a throwing reshaper and a throwing reorderer
are both caught. -/
theorem processArabicText_total_and_caught_witness :
    processArabicText (fun _ => Except.error ()) "نص".toList = "نص".toList ∧
    processArabicTextBidi (fun t => Except.ok t) (fun _ => Except.error ())
      "نص".toList = "نص".toList :=
  ⟨processArabicText_total_and_caught.2.1 _ _ rfl,
   processArabicText_total_and_caught.2.2.2.2 _ _ _ _ rfl rfl⟩

/-! ## C8: the reordering step performs no mirroring -/

/-- C8 counterexample: for the input `(ب)` every character resolves to an
odd (right-to-left) embedding level under the bidirectional algorithm with
a right-to-left base direction, so the claimed reordering (reverse the
level run, then mirror the paired parentheses) would produce `(ب)` again;
the code's `reverseStringForPdf` instead produces `)ب(` — it reverses
segment order but never substitutes a mirrored glyph. -/
theorem reverseStringForPdf_no_mirroring_counterexample :
    reverseStringForPdf "(ب)".toList = ")ب(".toList ∧
    ")ب(".toList ≠ "(ب)".toList := by
  exact ⟨by decide, by decide⟩

/-- The segments produced by the segmentation loop concatenate back to the
input: `cur ++ cs` for accumulator `cur` and remaining text `cs`. -/
theorem segmentGo_flatten (cs : List Char) : ∀ (cur : List Char) (b : Bool),
    ((segmentGo cs cur b).map Prod.fst).flatten = cur ++ cs := by
  induction cs with
  | nil =>
    intro cur b
    unfold segmentGo
    split <;> simp_all [List.isEmpty_iff]
  | cons c cs ih =>
    intro cur b
    unfold segmentGo
    split_ifs with h1 h2
    · rw [ih]
      simp [List.isEmpty_iff.mp h1]
    · rw [ih]
      simp
    · simp only [List.map_cons, List.flatten_cons]
      rw [ih]
      simp

/-- Flattening a reversed list of lists permutes the flattening of the
original. -/
theorem flatten_reverse_perm (L : List (List Char)) :
    L.reverse.flatten.Perm L.flatten := by
  induction L with
  | nil => simp
  | cons a L ih =>
    simp only [List.reverse_cons, List.flatten_append, List.flatten_cons]
    refine (List.perm_append_comm.trans ?_)
    simp only [List.flatten_nil, List.append_nil]
    exact ih.append_left a

/-- Reversing the Arabic segments in place permutes the segment contents. -/
theorem flatten_map_seg_perm (L : List (List Char × Bool)) :
    ((L.map (fun s => if s.2 then s.1.reverse else s.1)).flatten).Perm
      ((L.map Prod.fst).flatten) := by
  induction L with
  | nil => simp
  | cons s L ih =>
    simp only [List.map_cons, List.flatten_cons]
    refine List.Perm.append ?_ ih
    by_cases h : s.2 <;> simp [h, List.reverse_perm]

/-- C8 amended: the repository's reordering step (`reverseStringForPdf`)
performs no mirroring at all — it reorders characters (segment order
reversed, Arabic segments reversed internally) but every character keeps
its identity, so the output is a permutation of the input and no paired
character is ever replaced by its mirror. -/
theorem reverseStringForPdf_perm (l : List Char) :
    (reverseStringForPdf l).Perm l := by
  unfold reverseStringForPdf
  refine (flatten_map_seg_perm _).trans ?_
  have h1 : ((segmentGo l [] false).reverse.map Prod.fst).flatten.Perm
      ((segmentGo l [] false).map Prod.fst).flatten := by
    rw [List.map_reverse]
    exact flatten_reverse_perm _
  refine h1.trans ?_
  rw [segmentGo_flatten]
  simp

/-! ## C4: one pure tier mapping shared by table, cards and legend -/

/-- C4: the tier bands (`p ≥ 75`, `50 ≤ p < 75`, `p < 50`) cover `[0, 100]`
with no gaps or overlaps; the score-table status cell, the table status
color, and the summary-card badge color are all computed by the single pure
pair `getMaturityLabel` / `getMaturityColor`; and every legend entry agrees
with that mapping on its whole displayed range. -/
theorem tier_mapping_consistent :
    (∀ p : ℚ, 0 ≤ p → p ≤ 100 →
      (75 ≤ p ∨ (50 ≤ p ∧ p < 75) ∨ p < 50) ∧
      (¬(75 ≤ p) ∨ ¬(50 ≤ p ∧ p < 75)) ∧
      (¬(75 ≤ p) ∨ ¬(p < 50)) ∧
      (¬(50 ≤ p ∧ p < 75) ∨ ¬(p < 50))) ∧
    (∀ ds : DimensionScore,
      (tableCellSources ds)[4]? = some (getMaturityLabel ds.percentage).toList ∧
      (∀ h f, (tableDataRow h f ds).2.1 = getMaturityColor ds.percentage) ∧
      summaryItemColor ds = getMaturityColor ds.percentage) ∧
    (∀ pr ∈ legendItems.zip legendBounds, ∀ p : ℚ,
      pr.2.1 ≤ p → p ≤ pr.2.2 →
      getMaturityLabel p = pr.1.1 ∧ getMaturityColor p = pr.1.2.2) := by
  refine ⟨?_, ?_, ?_⟩
  · intro p h0 h100
    refine ⟨?_, ?_, ?_, ?_⟩
    · by_cases h1 : 75 ≤ p
      · exact Or.inl h1
      · by_cases h2 : 50 ≤ p
        · exact Or.inr (Or.inl ⟨h2, lt_of_not_le h1⟩)
        · exact Or.inr (Or.inr (lt_of_not_le h2))
    · by_cases h1 : 75 ≤ p
      · exact Or.inr (fun hc => absurd hc.2 (not_lt.mpr h1))
      · exact Or.inl h1
    · by_cases h1 : 75 ≤ p
      · exact Or.inr (not_lt.mpr (by linarith))
      · exact Or.inl h1
    · by_cases h2 : 50 ≤ p
      · exact Or.inr (not_lt.mpr h2)
      · exact Or.inl (fun hc => absurd hc.1 h2)
  · intro ds
    refine ⟨by simp [tableCellSources], fun h f => rfl, rfl⟩
  · intro pr hpr p hlo hhi
    simp only [legendItems, legendBounds, List.zip_cons_cons, List.zip_nil_right,
      List.mem_cons, List.not_mem_nil, or_false] at hpr
    rcases hpr with h | h | h <;> subst h <;>
      simp only [getMaturityLabel, getMaturityColor] at * <;>
      split_ifs <;> first | exact ⟨rfl, rfl⟩ | linarith

/-- Concrete instance of C4: the first legend entry agrees with the shared
mapping at `p = 80`. -/
theorem tier_mapping_consistent_witness :
    getMaturityLabel 80 = "مثالي" ∧ getMaturityColor 80 = tealColor := by
  have h := tier_mapping_consistent.2.2
    (("مثالي", "75%-100%", tealColor), ((75 : ℚ), (100 : ℚ)))
    (by simp [legendItems, legendBounds]) 80 (by norm_num) (by norm_num)
  exact h

/-! ## C7: one body row per dimension, rounded percentage cell -/

/-- C7: for a `ReportInput` with `N` dimension scores the table body passed
to the table renderer has exactly `N` rows, in list order; row `i` is the
rendered cell list of dimension `i`, and its percentage cell (index 3) is
the rendered `round(percentage)` followed by the Arabic percent sign. -/
theorem score_table_rows (h : Bool) (f : List Char → Except Unit (List Char))
    (scores : List DimensionScore) :
    (tableBody h f scores).length = scores.length ∧
    (∀ i, ∀ hi : i < scores.length,
      (tableBody h f scores)[i]? =
        some ((tableCellSources scores[i]).map (renderText h f)) ∧
      ((tableCellSources scores[i]).map (renderText h f))[3]? =
        some (renderText h f ((toString (jsRound scores[i].percentage) ++ "٪").toList))) := by
  constructor
  · simp [tableBody]
  · intro i hi
    constructor
    · simp [tableBody, tableDataRow, List.getElem?_map, List.getElem?_eq_getElem hi]
    · simp [tableCellSources]

/-- Concrete instance of C7 for a one-dimension input. -/
theorem score_table_rows_witness :
    (tableBody false (fun t => Except.ok t)
      [DimensionScore.mk 18 25 72 "م" 1]).length =
      [DimensionScore.mk 18 25 72 "م" 1].length ∧
    (tableBody false (fun t => Except.ok t) [DimensionScore.mk 18 25 72 "م" 1])[0]? =
      some ((tableCellSources ([DimensionScore.mk 18 25 72 "م" 1])[0]).map
        (renderText false (fun t => Except.ok t))) :=
  ⟨(score_table_rows false (fun t => Except.ok t) [DimensionScore.mk 18 25 72 "م" 1]).1,
   ((score_table_rows false (fun t => Except.ok t)
      [DimensionScore.mk 18 25 72 "م" 1]).2 0 (by decide)).1⟩

/-! ## C1: total font failure falls back to the normalizer alone -/

/-- If every font-resource fetch fails, `loadAmiriFont` rethrows the last
error. -/
theorem loadAmiriFont_allFail (fetches : List FetchOutcome)
    (h : ∀ r ∈ fetches, r = FetchOutcome.fail) :
    loadAmiriFont fetches = Except.error () := by
  induction fetches with
  | nil => rfl
  | cons r rest ih =>
    have hr := h r (List.mem_cons_self r rest)
    subst hr
    exact ih (fun x hx => h x (List.mem_cons_of_mem _ hx))

/-- No `raw` emission occurs on the cover page. -/
theorem raw_not_in_cover (input : ReportInput) (logoOk : Bool) (now : Nat)
    (t : List Char) : Emission.raw t ∉ coverEmissions input logoOk now := by
  intro h
  unfold coverEmissions at h
  cases horg : input.organization with
  | none =>
    cases hm : maturityOf input.assessment.maturity_level <;>
      cases logoOk <;> simp_all
  | some org =>
    cases hot : org.orgType with
    | none =>
      cases hm : maturityOf input.assessment.maturity_level <;>
        cases logoOk <;> simp_all
    | some ty =>
      cases hl : lookupOrgType ty <;>
        cases hm : maturityOf input.assessment.maturity_level <;>
          cases logoOk <;> by_cases hty : ty = "" <;> simp_all

/-- The summary items emit only `direct` strings. -/
theorem raw_not_in_summaryItems (items : List DimensionScore) (t : List Char) :
    Emission.raw t ∉ summaryItemEmissions items := by
  intro h
  simp [summaryItemEmissions, List.mem_flatMap] at h

/-- No `raw` emission occurs in the executive summary. -/
theorem raw_not_in_summary (input : ReportInput) (t : List Char) :
    Emission.raw t ∉ summaryEmissions input := by
  intro h
  unfold summaryEmissions at h
  simp only [List.mem_append, List.mem_cons, List.not_mem_nil, or_false] at h
  rcases h with ((h | h) | h) | h
  · simp_all
  · exact raw_not_in_summaryItems _ _ h
  · simp_all
  · exact raw_not_in_summaryItems _ _ h

/-- The only `raw` emission of the table section is the `"#"` header
cell. -/
theorem raw_in_table (input : ReportInput) (t : List Char)
    (h : Emission.raw t ∈ tableEmissions input) : t = "#".toList := by
  unfold tableEmissions at h
  simp [tableCellSources, legendItems, List.mem_flatMap, List.mem_map] at h
  exact h

/-- The list items emit only `direct` and `wrapped` strings. -/
theorem raw_not_in_listItems (items : List (List Char)) (t : List Char) :
    Emission.raw t ∉ listItemEmissions items := by
  intro h
  simp [listItemEmissions, List.mem_flatMap] at h

/-- No `raw` emission occurs in the prioritized lists. -/
theorem raw_not_in_lists (input : ReportInput) (t : List Char) :
    Emission.raw t ∉ listsEmissions input := by
  intro h
  unfold listsEmissions at h
  simp only [List.mem_append] at h
  rcases h with (h | h) | h <;> split_ifs at h <;>
    simp_all [List.mem_cons] <;> exact raw_not_in_listItems _ _ h

/-- No `raw` emission occurs in the footer pass. -/
theorem raw_not_in_footer (input : ReportInput) (pc : Nat) (t : List Char) :
    Emission.raw t ∉ footerEmissions input pc := by
  intro h
  unfold footerEmissions at h
  simp only [List.mem_flatMap] at h
  obtain ⟨i, _, hi⟩ := h
  cases horg : input.organization <;> simp_all

/-- Any `raw` emission of the whole document is the `"#"` header cell. -/
theorem raw_in_emissions (input : ReportInput) (logoOk : Bool) (now pc : Nat)
    (t : List Char) (h : Emission.raw t ∈ emissionsOf input logoOk now pc) :
    t = "#".toList := by
  unfold emissionsOf at h
  simp only [List.mem_append] at h
  rcases h with (((h | h) | h) | h) | h
  · exact absurd h (raw_not_in_cover input logoOk now t)
  · exact absurd h (raw_not_in_summary input t)
  · exact raw_in_table input t h
  · exact absurd h (raw_not_in_lists input t)
  · exact absurd h (raw_not_in_footer input pc t)

/-- C1: when every font-resource location fails, the render still completes
(no error reaches the caller), `hasAmiri` is `false`, and every string
drawn into the document is the output of the Digit/Symbol Normalizer alone
— directly, or line-wrapped by the splitter — with `processArabicText`
(shaping and bidi reordering) never applied. -/
theorem fallback_render_normalizer_only (fontFetches : List FetchOutcome)
    (input : ReportInput) (reshapeF : List Char → Except Unit (List Char))
    (splitF : List Char → List (List Char)) (logoOk : Bool) (now pageCount : Nat)
    (hfail : ∀ r ∈ fontFetches, r = FetchOutcome.fail) :
    hasAmiriOf fontFetches = false ∧
    exportResultsToPDF fontFetches input reshapeF splitF logoOk now pageCount =
      Except.ok (documentStrings input false reshapeF splitF logoOk now pageCount) ∧
    ∀ s ∈ documentStrings input false reshapeF splitF logoOk now pageCount,
      (∃ t, s = normalizeForPdf t) ∨ (∃ t, s ∈ splitF (normalizeForPdf t)) := by
  have hf : hasAmiriOf fontFetches = false := by
    unfold hasAmiriOf
    rw [loadAmiriFont_allFail fontFetches hfail]
  refine ⟨hf, ?_, ?_⟩
  · unfold exportResultsToPDF
    rw [hf]
  · intro s hs
    unfold documentStrings at hs
    obtain ⟨e, he, hs⟩ := List.mem_flatMap.mp hs
    cases e with
    | direct u =>
      left
      refine ⟨u, ?_⟩
      simpa [runEmission, renderText] using hs
    | wrapped u =>
      right
      refine ⟨u, ?_⟩
      simpa [runEmission, renderText] using hs
    | raw u =>
      left
      have hu : u = "#".toList := raw_in_emissions input logoOk now pageCount u he
      refine ⟨"#".toList, ?_⟩
      simp only [runEmission, List.mem_singleton] at hs
      subst hs
      rw [hu]
      rfl

/-- The empty report input, used for concrete instances. -/
def emptyInput : ReportInput :=
  ReportInput.mk (Assessment.mk none none none) [] [] [] [] none

/-- Concrete instance of C1: both font locations fail, the render returns a
document anyway. -/
theorem fallback_render_normalizer_only_witness :
    hasAmiriOf [FetchOutcome.fail, FetchOutcome.fail] = false ∧
    exportResultsToPDF [FetchOutcome.fail, FetchOutcome.fail] emptyInput
      (fun u => Except.ok u) (fun u => [u]) true 0 0 =
      Except.ok (documentStrings emptyInput false (fun u => Except.ok u)
        (fun u => [u]) true 0 0) :=
  ⟨(fallback_render_normalizer_only [FetchOutcome.fail, FetchOutcome.fail]
      emptyInput (fun u => Except.ok u) (fun u => [u]) true 0 0 (by decide)).1,
   (fallback_render_normalizer_only [FetchOutcome.fail, FetchOutcome.fail]
      emptyInput (fun u => Except.ok u) (fun u => [u]) true 0 0 (by decide)).2.1⟩

/-! ## C6: determinism of the render -/

/-- C6 counterexample: for an input whose `completed_at` is null,
`formatDate` reads the current clock, so two renders of the same
`ReportInput` under the same font availability on different days draw
different cover dates — the output is not a function of the input and the
font flag alone. -/
theorem render_not_deterministic_without_timestamp :
    documentStrings emptyInput false (fun u => Except.ok u) (fun u => [u]) true 0 0 ≠
    documentStrings emptyInput false (fun u => Except.ok u) (fun u => [u]) true 1 0 := by
  intro h
  simp only [documentStrings, emissionsOf, coverEmissions, summaryEmissions,
    tableEmissions, listsEmissions, footerEmissions, summaryItemEmissions,
    listItemEmissions, cleanedList, sortByPercentageDesc, sortByPercentageAsc,
    introTextOf, maturityCardText, maturityOf, emptyInput, footerPassPages,
    runEmission, renderText, formatDate, legendItems, List.range_zero,
    List.mergeSort_nil, List.map_nil, List.filter_nil, List.take_nil,
    List.enum_nil, List.flatMap_nil, List.flatMap_cons, List.flatMap_nil,
    List.nil_append, List.append_nil, List.map_cons, List.cons_append,
    List.isEmpty_nil, if_true, if_false, List.cons.injEq, List.append_assoc,
    Bool.false_eq_true, List.singleton_append] at h
  obtain ⟨-, -, -, -, hdate, -⟩ := h
  exact absurd hdate (by decide)

/-- C6 amended: when the input's completion timestamp is present, the
emitted document is a deterministic function of the `ReportInput` and the
font availability — the clock parameter is never read. -/
theorem render_deterministic_with_timestamp (input : ReportInput) (d : Nat)
    (hc : input.assessment.completed_at = some d) (hasAmiri : Bool)
    (reshapeF : List Char → Except Unit (List Char))
    (splitF : List Char → List (List Char)) (logoOk : Bool) (pc : Nat)
    (now1 now2 : Nat) :
    emissionsOf input logoOk now1 pc = emissionsOf input logoOk now2 pc ∧
    documentStrings input hasAmiri reshapeF splitF logoOk now1 pc =
      documentStrings input hasAmiri reshapeF splitF logoOk now2 pc := by
  have he : coverEmissions input logoOk now1 = coverEmissions input logoOk now2 := by
    unfold coverEmissions
    rw [hc]
    simp [formatDate]
  have h1 : emissionsOf input logoOk now1 pc = emissionsOf input logoOk now2 pc := by
    unfold emissionsOf
    rw [he]
  exact ⟨h1, by unfold documentStrings; rw [h1]⟩

/-- A report input with a stored completion timestamp. -/
def datedInput : ReportInput :=
  ReportInput.mk (Assessment.mk none none (some 5)) [] [] [] [] none

/-! ## C5: idempotence of the normalizer on digit / percent strings

The proof tracks the character alphabet through the pipeline: an input over
`{0-9, %}` normalizes to a string over `{٠-٩, ٪}` (Arabic-Indic digits and
the Arabic percent sign), and every pipeline stage is the identity on the
latter alphabet. -/

/-- Characters are equal iff their code points are. -/
theorem char_eq_iff_toNat (a b : Char) : a = b ↔ a.toNat = b.toNat := by
  constructor
  · intro h
    rw [h]
  · intro h
    exact Char.ext (UInt32.ext h)

/-- Facts about the input alphabet `{0-9, %}`: no letters, no whitespace. -/
theorem inputAlphabet_facts (c : Char) (h : (isAsciiDigit c || c = '%') = true) :
    isAsciiLetter c = false ∧ isJsWs c = false := by
  simp only [Bool.or_eq_true, decide_eq_true_eq] at h
  rcases h with h | h
  · simp only [isAsciiDigit, Bool.and_eq_true, decide_eq_true_eq] at h
    simp only [isAsciiLetter, isJsWs, Bool.or_eq_false_iff, Bool.and_eq_false_iff,
      decide_eq_false_iff_not, not_le]
    omega
  · subst h
    exact ⟨by decide, by decide⟩

/-- Facts about the output alphabet `{٠-٩, ٪}`: none of its characters is a
letter, whitespace, a western percent sign, a dash, a western digit, or an
opening parenthesis. -/
theorem targetAlphabet_facts (c : Char)
    (h : (isArabicIndicDigit c || c = arabicPercent) = true) :
    isAsciiLetter c = false ∧ isJsWs c = false ∧ c ≠ '%' ∧ isDash c = false ∧
    isAsciiDigit c = false ∧ c ≠ '(' := by
  simp only [Bool.or_eq_true, decide_eq_true_eq] at h
  rcases h with h | h
  · simp only [isArabicIndicDigit, Bool.and_eq_true, decide_eq_true_eq] at h
    refine ⟨?_, ?_, ?_, ?_, ?_, ?_⟩
    · simp only [isAsciiLetter, Bool.or_eq_false_iff, Bool.and_eq_false_iff,
        decide_eq_false_iff_not, not_le]
      omega
    · simp only [isJsWs, Bool.or_eq_false_iff, decide_eq_false_iff_not]
      omega
    · intro he
      rw [char_eq_iff_toNat] at he
      have h37 : ('%' : Char).toNat = 37 := rfl
      rw [h37] at he
      omega
    · simp only [isDash, Bool.or_eq_false_iff, decide_eq_false_iff_not]
      omega
    · simp only [isAsciiDigit, Bool.and_eq_false_iff, decide_eq_false_iff_not, not_le]
      omega
    · intro he
      rw [char_eq_iff_toNat] at he
      have h40 : ('(' : Char).toNat = 40 := rfl
      rw [h40] at he
      omega
  · subst h
    exact ⟨by decide, by decide, by decide, by decide, by decide, by decide⟩

/-- A character whose ASCII lower-casing is a lower-case letter is itself a
letter. -/
theorem lower_matches_letter (c t : Char) (h1 : 97 ≤ t.toNat) (h2 : t.toNat ≤ 122)
    (he : lowerAscii c = t) : isAsciiLetter c = true := by
  unfold lowerAscii at he
  split_ifs at he with hu
  · simp only [Bool.and_eq_true, decide_eq_true_eq] at hu
    simp only [isAsciiLetter, Bool.or_eq_true, Bool.and_eq_true, decide_eq_true_eq]
    omega
  · subst he
    simp only [isAsciiLetter, Bool.or_eq_true, Bool.and_eq_true, decide_eq_true_eq]
    omega

/-- A denylist term is well-formed when it starts with a lower-case ASCII
letter (all six terms do). -/
def goodTerm (term : List Char) : Bool :=
  match term.head? with
  | some t => 97 ≤ t.toNat && t.toNat ≤ 122
  | none => false

/-- A whole-word term replacement never fires inside a letter-free string. -/
theorem removeTermGo_id (term : List Char) (hterm : goodTerm term = true) :
    ∀ (fuel : Nat) (p : Bool) (l : List Char),
      (∀ c ∈ l, isAsciiLetter c = false) → removeTermGo term fuel p l = l := by
  intro fuel
  induction fuel with
  | zero => intro p l _; rfl
  | succ n ih =>
    intro p l h
    cases term with
    | nil => simp [goodTerm] at hterm
    | cons t ts =>
      simp only [goodTerm, List.head?_cons, Bool.and_eq_true, decide_eq_true_eq] at hterm
      cases l with
      | nil => rfl
      | cons c cs =>
        have hm : matchTermCI (t :: ts) (c :: cs) = none := by
          unfold matchTermCI
          split_ifs with heq
          · exfalso
            have hl := lower_matches_letter c t hterm.1 hterm.2 heq
            rw [h c (List.mem_cons_self c cs)] at hl
            exact Bool.false_ne_true hl
          · rfl
        unfold removeTermGo
        rw [hm]
        rw [ih (isWordChar c) cs (fun x hx => h x (List.mem_cons_of_mem _ hx))]

/-- Folding the whole denylist over a letter-free string is the identity. -/
theorem foldl_removeTerm_id (terms : List (List Char)) (l : List Char)
    (hl : ∀ c ∈ l, isAsciiLetter c = false)
    (hterms : ∀ term ∈ terms, goodTerm term = true) :
    terms.foldl (fun acc term => removeTerm term acc) l = l := by
  induction terms with
  | nil => rfl
  | cons term rest ih =>
    simp only [List.foldl_cons]
    rw [show removeTerm term l = l from
      removeTermGo_id term (hterms term (List.mem_cons_self term rest)) l.length false l hl]
    exact ih (fun x hx => hterms x (List.mem_cons_of_mem _ hx))

/-- Whitespace collapsing is the identity on whitespace-free strings. -/
theorem collapseWsGo_id : ∀ (fuel : Nat) (l : List Char),
    (∀ c ∈ l, isJsWs c = false) → collapseWsGo fuel l = l := by
  intro fuel
  induction fuel with
  | zero => intro l _; rfl
  | succ n ih =>
    intro l h
    cases l with
    | nil => rfl
    | cons c cs =>
      unfold collapseWsGo
      rw [h c (List.mem_cons_self c cs)]
      simp only [Bool.false_eq_true, if_false]
      rw [ih cs (fun x hx => h x (List.mem_cons_of_mem _ hx))]

/-- `dropWhile` is the identity when the predicate holds nowhere. -/
theorem dropWhile_eq_self_of (p : Char → Bool) (l : List Char)
    (h : ∀ c ∈ l, p c = false) : l.dropWhile p = l := by
  cases l with
  | nil => rfl
  | cons c cs => simp [List.dropWhile_cons, h c (List.mem_cons_self c cs)]

/-- Trimming is the identity on whitespace-free strings. -/
theorem trimJs_id (l : List Char) (h : ∀ c ∈ l, isJsWs c = false) :
    trimJs l = l := by
  unfold trimJs
  rw [dropWhile_eq_self_of _ _ h]
  rw [dropWhile_eq_self_of _ _ (fun c hc => h c (List.mem_reverse.mp hc))]
  exact List.reverse_reverse l

/-- The technical-term stripper is the identity on strings with no ASCII
letters and no whitespace. -/
theorem stripTechnicalTerms_id (l : List Char)
    (hL : ∀ c ∈ l, isAsciiLetter c = false)
    (hW : ∀ c ∈ l, isJsWs c = false) : stripTechnicalTerms l = l := by
  unfold stripTechnicalTerms
  rw [foldl_removeTerm_id _ _ hL (by decide)]
  rw [show collapseWs l = l from collapseWsGo_id l.length l hW]
  exact trimJs_id l hW

/-- The leading-percent rewrite only emits characters of its input. -/
theorem leadPctGo_subset : ∀ (fuel : Nat) (l : List Char), leadPctGo fuel l ⊆ l := by
  intro fuel
  induction fuel with
  | zero =>
    intro l
    exact fun x hx => hx
  | succ n ih =>
    intro l
    cases l with
    | nil => exact fun x hx => hx
    | cons c cs =>
      unfold leadPctGo
      by_cases hc : c = '%'
      · simp only [hc, if_true]
        by_cases hds : (((cs.dropWhile isJsWs).takeWhile isAsciiDigit).isEmpty) = true
        · simp only [hds, if_true]
          intro x hx
          rcases List.mem_cons.mp hx with h | h
          · rw [h, ← hc]
            exact List.mem_cons_self _ _
          · exact List.mem_cons_of_mem _ (ih cs h)
        · simp only [hds, if_false]
          intro x hx
          rcases List.mem_append.mp hx with h | h
          · have hx2 : x ∈ cs :=
              ((List.takeWhile_sublist _).trans (List.dropWhile_sublist _)).subset h
            exact List.mem_cons_of_mem _ hx2
          · rcases List.mem_cons.mp h with h | h
            · rw [h, ← hc]
              exact List.mem_cons_self _ _
            · have hx2 : x ∈ cs :=
                ((List.dropWhile_sublist _).trans (List.dropWhile_sublist _)).subset (ih _ h)
              exact List.mem_cons_of_mem _ hx2
      · simp only [hc, if_false]
        intro x hx
        rcases List.mem_cons.mp hx with h | h
        · rw [h]
          exact List.mem_cons_self _ _
        · exact List.mem_cons_of_mem _ (ih cs h)

/-- The leading-percent rewrite is the identity on percent-free strings. -/
theorem leadPctGo_id : ∀ (fuel : Nat) (l : List Char),
    (∀ c ∈ l, c ≠ '%') → leadPctGo fuel l = l := by
  intro fuel
  induction fuel with
  | zero => intro l _; rfl
  | succ n ih =>
    intro l h
    cases l with
    | nil => rfl
    | cons c cs =>
      unfold leadPctGo
      rw [if_neg (h c (List.mem_cons_self c cs))]
      rw [ih cs (fun x hx => h x (List.mem_cons_of_mem _ hx))]

/-- `%` → `٪` is the identity on percent-free strings. -/
theorem mapPercentSign_id (l : List Char) (h : ∀ c ∈ l, c ≠ '%') :
    mapPercentSign l = l := by
  unfold mapPercentSign
  rw [List.map_congr_left (fun c hc => if_neg (h c hc))]
  exact List.map_id l

/-- The range rewrite never matches in a dash-free string. -/
theorem tryRangeMatch_none_of_no_dash (l : List Char)
    (h : ∀ c ∈ l, isDash c = false) : tryRangeMatch l = none := by
  unfold tryRangeMatch
  by_cases h1 : ((l.takeWhile isAsciiDigit).isEmpty) = true
  · simp [h1]
  · simp only [h1, if_false]
    cases hr2 : (l.dropWhile isAsciiDigit).dropWhile isJsWs with
    | nil => simp
    | cons p r3 =>
      by_cases hp : p = arabicPercent
      · cases hr4 : r3.dropWhile isJsWs with
        | nil => simp [hp, hr4]
        | cons d r5 =>
          have hd : d ∈ l := by
            have hd4 : d ∈ r3.dropWhile isJsWs := by
              rw [hr4]
              exact List.mem_cons_self d r5
            have hd3 : d ∈ r3 := (List.dropWhile_sublist _).subset hd4
            have hd2 : d ∈ (l.dropWhile isAsciiDigit).dropWhile isJsWs := by
              rw [hr2]
              exact List.mem_cons_of_mem _ hd3
            exact ((List.dropWhile_sublist _).trans (List.dropWhile_sublist _)).subset hd2
          simp [hp, hr4, h d hd]
      · simp [hp]

/-- The range rewrite pass is the identity on dash-free strings. -/
theorem rangeFixGo_id : ∀ (fuel : Nat) (l : List Char),
    (∀ c ∈ l, isDash c = false) → rangeFixGo fuel l = l := by
  intro fuel
  induction fuel with
  | zero => intro l _; rfl
  | succ n ih =>
    intro l h
    cases l with
    | nil => rfl
    | cons c cs =>
      unfold rangeFixGo
      rw [tryRangeMatch_none_of_no_dash (c :: cs) h]
      rw [ih cs (fun x hx => h x (List.mem_cons_of_mem _ hx))]

/-- The digit remapping fixes every non-digit character. -/
theorem westernToArabicDigit_id (c : Char) (h : isAsciiDigit c = false) :
    westernToArabicDigit c = c := by
  have hb : c.toNat < 48 ∨ 57 < c.toNat := by
    simp only [isAsciiDigit, Bool.and_eq_false_iff, decide_eq_false_iff_not, not_le] at h
    omega
  unfold westernToArabicDigit
  split_ifs with h0 h1 h2 h3 h4 h5 h6 h7 h8 h9
  · subst h0; exact absurd hb (by decide)
  · subst h1; exact absurd hb (by decide)
  · subst h2; exact absurd hb (by decide)
  · subst h3; exact absurd hb (by decide)
  · subst h4; exact absurd hb (by decide)
  · subst h5; exact absurd hb (by decide)
  · subst h6; exact absurd hb (by decide)
  · subst h7; exact absurd hb (by decide)
  · subst h8; exact absurd hb (by decide)
  · subst h9; exact absurd hb (by decide)
  · rfl

/-- The digit remapping sends every ASCII digit to an Arabic-Indic digit. -/
theorem westernToArabicDigit_arabic (c : Char) (h : isAsciiDigit c = true) :
    isArabicIndicDigit (westernToArabicDigit c) = true := by
  have hb : 48 ≤ c.toNat ∧ c.toNat ≤ 57 := by
    simpa [isAsciiDigit, Bool.and_eq_true, decide_eq_true_eq] using h
  have e0 : ('0' : Char).toNat = 48 := rfl
  have e1 : ('1' : Char).toNat = 49 := rfl
  have e2 : ('2' : Char).toNat = 50 := rfl
  have e3 : ('3' : Char).toNat = 51 := rfl
  have e4 : ('4' : Char).toNat = 52 := rfl
  have e5 : ('5' : Char).toNat = 53 := rfl
  have e6 : ('6' : Char).toNat = 54 := rfl
  have e7 : ('7' : Char).toNat = 55 := rfl
  have e8 : ('8' : Char).toNat = 56 := rfl
  have e9 : ('9' : Char).toNat = 57 := rfl
  have hcases : c = '0' ∨ c = '1' ∨ c = '2' ∨ c = '3' ∨ c = '4' ∨ c = '5' ∨
      c = '6' ∨ c = '7' ∨ c = '8' ∨ c = '9' := by
    simp only [char_eq_iff_toNat, e0, e1, e2, e3, e4, e5, e6, e7, e8, e9]
    omega
  rcases hcases with h | h | h | h | h | h | h | h | h | h <;> subst h <;> decide

/-- The mandatory-parenthesis pass is the identity on strings with no
opening parenthesis. -/
theorem stabilizeGo_id : ∀ (fuel : Nat) (l : List Char),
    (∀ c ∈ l, c ≠ '(') → stabilizeGo fuel l = l := by
  intro fuel
  induction fuel with
  | zero => intro l _; rfl
  | succ n ih =>
    intro l h
    cases l with
    | nil => rfl
    | cons c cs =>
      unfold stabilizeGo
      rw [if_neg (h c (List.mem_cons_self c cs))]
      rw [ih cs (fun x hx => h x (List.mem_cons_of_mem _ hx))]

/-- C5: on every string over the alphabet `{0-9, %}` the Digit/Symbol
Normalizer is idempotent: a second application is a no-op.  (The first
application produces a string over `{٠-٩, ٪}`, on which every stage of the
pipeline is the identity.) -/
theorem normalizeForPdf_idempotent (l : List Char)
    (h : ∀ c ∈ l, (isAsciiDigit c || c = '%') = true) :
    normalizeForPdf (normalizeForPdf l) = normalizeForPdf l := by
  -- first pass: the technical-term stripper is the identity …
  have hstrip : stripTechnicalTerms l = l :=
    stripTechnicalTerms_id l (fun c hc => (inputAlphabet_facts c (h c hc)).1)
      (fun c hc => (inputAlphabet_facts c (h c hc)).2)
  have h1 : ∀ c ∈ leadPct l, (isAsciiDigit c || c = '%') = true :=
    fun c hc => h c (leadPctGo_subset l.length l hc)
  -- … after the percent rewrite every character is a digit or `٪` …
  have h2 : ∀ c ∈ mapPercentSign (leadPct l),
      isAsciiDigit c = true ∨ c = arabicPercent := by
    intro c hc
    obtain ⟨a, ha, hac⟩ := List.mem_map.mp hc
    by_cases hap : a = '%'
    · right
      rw [← hac, if_pos hap]
    · left
      have ha1 := h1 a ha
      simp only [Bool.or_eq_true, decide_eq_true_eq] at ha1
      rcases ha1 with hd | hp
      · rw [← hac, if_neg hap]
        exact hd
      · exact absurd hp hap
  -- … so the range rewrite never fires …
  have hrange : rangeFix (mapPercentSign (leadPct l)) = mapPercentSign (leadPct l) := by
    unfold rangeFix
    refine rangeFixGo_id _ _ (fun c hc => ?_)
    rcases h2 c hc with hd | hp
    · simp only [isAsciiDigit, Bool.and_eq_true, decide_eq_true_eq] at hd
      simp only [isDash, Bool.or_eq_false_iff, decide_eq_false_iff_not]
      omega
    · subst hp
      decide
  -- … and after the digit remapping the result is over `{٠-٩, ٪}`.
  have h3 : ∀ c ∈ mapWesternDigitsToArabic (mapPercentSign (leadPct l)),
      (isArabicIndicDigit c || c = arabicPercent) = true := by
    intro c hc
    obtain ⟨a, ha, hac⟩ := List.mem_map.mp hc
    rcases h2 a ha with hd | hp
    · rw [← hac]
      simp only [Bool.or_eq_true]
      exact Or.inl (westernToArabicDigit_arabic a hd)
    · subst hp
      rw [← hac]
      decide
  have hstab : stabilizePercentParentheses
      (mapWesternDigitsToArabic (mapPercentSign (leadPct l))) =
      mapWesternDigitsToArabic (mapPercentSign (leadPct l)) := by
    unfold stabilizePercentParentheses
    exact stabilizeGo_id _ _ (fun c hc => (targetAlphabet_facts c (h3 c hc)).2.2.2.2.2)
  have hnorm : normalizeForPdf l = mapWesternDigitsToArabic (mapPercentSign (leadPct l)) := by
    unfold normalizeForPdf normalizePercents
    rw [hstrip, hrange, hstab]
  -- second pass: every stage is the identity on the target alphabet
  have ft := fun c hc => targetAlphabet_facts c (h3 c hc)
  have s1 : stripTechnicalTerms (mapWesternDigitsToArabic (mapPercentSign (leadPct l))) =
      mapWesternDigitsToArabic (mapPercentSign (leadPct l)) :=
    stripTechnicalTerms_id _ (fun c hc => (ft c hc).1) (fun c hc => (ft c hc).2.1)
  have s2 : leadPct (mapWesternDigitsToArabic (mapPercentSign (leadPct l))) =
      mapWesternDigitsToArabic (mapPercentSign (leadPct l)) := by
    unfold leadPct
    exact leadPctGo_id _ _ (fun c hc => (ft c hc).2.2.1)
  have s3 : mapPercentSign (mapWesternDigitsToArabic (mapPercentSign (leadPct l))) =
      mapWesternDigitsToArabic (mapPercentSign (leadPct l)) :=
    mapPercentSign_id _ (fun c hc => (ft c hc).2.2.1)
  have s4 : rangeFix (mapWesternDigitsToArabic (mapPercentSign (leadPct l))) =
      mapWesternDigitsToArabic (mapPercentSign (leadPct l)) := by
    unfold rangeFix
    exact rangeFixGo_id _ _ (fun c hc => (ft c hc).2.2.2.1)
  have s5 : mapWesternDigitsToArabic (mapWesternDigitsToArabic (mapPercentSign (leadPct l))) =
      mapWesternDigitsToArabic (mapPercentSign (leadPct l)) := by
    conv_lhs => rw [mapWesternDigitsToArabic]
    rw [List.map_congr_left (fun c hc => westernToArabicDigit_id c ((ft c hc).2.2.2.2.1))]
    exact List.map_id _
  have s6 : stabilizePercentParentheses (mapWesternDigitsToArabic (mapPercentSign (leadPct l))) =
      mapWesternDigitsToArabic (mapPercentSign (leadPct l)) := by
    unfold stabilizePercentParentheses
    exact stabilizeGo_id _ _ (fun c hc => (ft c hc).2.2.2.2.2)
  rw [hnorm]
  unfold normalizeForPdf normalizePercents
  rw [s1, s2, s3, s4, s5, s6]

/-- Concrete instance of C5 at the claim's example input `"52%"`. -/
theorem normalizeForPdf_idempotent_witness :
    normalizeForPdf (normalizeForPdf "52%".toList) = normalizeForPdf "52%".toList :=
  normalizeForPdf_idempotent "52%".toList (by decide)

/-- Concrete instance of the amended C6: with a stored timestamp the
emissions are identical across different clock readings. -/
theorem render_deterministic_with_timestamp_witness :
    emissionsOf datedInput true 0 0 = emissionsOf datedInput true 1 0 :=
  (render_deterministic_with_timestamp datedInput 5 rfl false
    (fun u => Except.ok u) (fun u => [u]) true 0 0 1).1

end Nusharek
